import Mathlib

/-!
Verification of the AABB test-data generator / ground-truth oracle / judge
(`gen.py`, `aabb_io.py`, `ground_truth.py`, `judge.py`).

Modelling conventions:
* Python floats are modelled as exact rationals (`ℚ`); every comparison and
  arithmetic operation appearing in the verified code paths is exact-value
  arithmetic, so the rational model is faithful to the branch structure of the
  source.
* For the binary codec, an IEEE-754 float32 value is represented by its 32-bit
  pattern (a natural number `< 2^32`): `struct.pack "<f"` writes exactly the
  4 little-endian bytes of that pattern and `struct.unpack "<f"` reads them
  back, so pattern-level equality is value-level equality for representable
  floats.  Bytes are natural numbers `< 256`.
* Python strings (judge tokens) are modelled as their code-point sequences
  (`List Char`); CPython compares strings lexicographically by code point,
  which is `tokLt` below.
* The process-global `random` source is modelled as an explicit stream of unit
  draws (a `List ℚ`); `random.uniform a b` is `a + (b - a) * u` for the next
  unit draw `u`, exactly as CPython computes it.
-/

namespace AABB

/-! ### Binary SoA codec (`aabb_io.py`) -/

/-- Little-endian 4-byte encoding of a 32-bit unsigned value, as produced by
`struct.pack` with format letters `I` (and, at pattern level, `f`). -/
def u32le (v : ℕ) : List ℕ :=
  [v % 256, v / 256 % 256, v / 65536 % 256, v / 16777216 % 256]

/-- Little-endian decoding of the first four bytes of a list, as read by
`struct.unpack` (missing bytes default to 0; all uses are length-checked). -/
def decodeU32 (l : List ℕ) : ℕ :=
  l.getD 0 0 + 256 * l.getD 1 0 + 65536 * l.getD 2 0 + 16777216 * l.getD 3 0

/-- The 4-byte magic literal: the bytes of the ASCII string AASO. -/
def magicAASO : List ℕ := [65, 65, 83, 79]

/-- Embedding of `write_soa_bin` (`aabb_io.py` lines 12-34): 24-byte header
(magic, version 1, count, world width, world height, reserved 0) followed by
the four coordinate arrays `min_x, min_y, max_x, max_y`, each value written as
4 little-endian bytes.  Boxes are quadruples of float32 bit patterns, world
dimensions are float32 bit patterns. -/
def write_soa_bin (boxes : List (ℕ × ℕ × ℕ × ℕ)) (width height : ℕ) : List ℕ :=
  magicAASO ++ u32le 1 ++ u32le boxes.length ++ u32le width ++ u32le height ++ u32le 0
    ++ (boxes.map (·.1)).flatMap u32le
    ++ (boxes.map (·.2.1)).flatMap u32le
    ++ (boxes.map (·.2.2.1)).flatMap u32le
    ++ (boxes.map (·.2.2.2)).flatMap u32le

/-- One `read_f32` call of `read_soa_arrays`: take `4*n` bytes off the front of
the remaining input (failing as the source does when fewer are available) and
decode them as `n` little-endian 32-bit values, returning the decoded array and
the rest of the input. -/
def readF32 (body : List ℕ) (n : ℕ) : Except String (List ℕ × List ℕ) :=
  if body.length < 4 * n then Except.error "Unexpected EOF reading SoA array"
  else Except.ok (chunk4 (body.take (4 * n)), body.drop (4 * n))
where
  /-- Decode a byte list into 32-bit values, four bytes at a time. -/
  chunk4 : List ℕ → List ℕ
  | b0 :: b1 :: b2 :: b3 :: rest =>
      (b0 + 256 * b1 + 65536 * b2 + 16777216 * b3) :: chunk4 rest
  | _ => []

/-- The magic field of the 24-byte header slice, as `struct.unpack` extracts
it (`4s` at offset 0). -/
def hdrMagic (bytes : List ℕ) : List ℕ := (bytes.take 24).take 4

/-- The version field of the 24-byte header slice (`I` at offset 4). -/
def hdrVersion (bytes : List ℕ) : ℕ := decodeU32 (((bytes.take 24).drop 4).take 4)

/-- The count field of the 24-byte header slice (`I` at offset 8). -/
def hdrCount (bytes : List ℕ) : ℕ := decodeU32 (((bytes.take 24).drop 8).take 4)

/-- The world-width field of the header (float32 pattern at offset 12). -/
def hdrWorldW (bytes : List ℕ) : ℕ := decodeU32 (((bytes.take 24).drop 12).take 4)

/-- The world-height field of the header (float32 pattern at offset 16). -/
def hdrWorldH (bytes : List ℕ) : ℕ := decodeU32 (((bytes.take 24).drop 16).take 4)

/-- Embedding of `read_soa_arrays` (`aabb_io.py` lines 37-66).  Mirrors the
source's sequential reads: a 24-byte header (failing if fewer than 24 bytes
are present), magic check, version check, then the four float32 arrays in
order, each failing on EOF.  Returns
`(min_x, min_y, max_x, max_y, n, world_w, world_h)`.  The magic error message
is abridged (the source writes the expected magic as a Python bytes literal);
only the distinctness of the four messages matters. -/
def read_soa_arrays (bytes : List ℕ) :
    Except String (List ℕ × List ℕ × List ℕ × List ℕ × ℕ × ℕ × ℕ) :=
  if (bytes.take 24).length ≠ 24 then Except.error "SoA file too small for header"
  else if hdrMagic bytes ≠ magicAASO then Except.error "Invalid SoA magic; expected AASO"
  else if hdrVersion bytes ≠ 1 then
    Except.error ("Unsupported SoA version: " ++ toString (hdrVersion bytes))
  else
    let n := hdrCount bytes
    let world_w := hdrWorldW bytes
    let world_h := hdrWorldH bytes
    match readF32 (bytes.drop 24) n with
    | Except.error e => Except.error e
    | Except.ok (min_x, rest1) =>
      match readF32 rest1 n with
      | Except.error e => Except.error e
      | Except.ok (min_y, rest2) =>
        match readF32 rest2 n with
        | Except.error e => Except.error e
        | Except.ok (max_x, rest3) =>
          match readF32 rest3 n with
          | Except.error e => Except.error e
          | Except.ok (max_y, _) =>
            Except.ok (min_x, min_y, max_x, max_y, n, world_w, world_h)

/-- Zip four lists into a list of quadruples, as `zip` does in
`read_soa_boxes`. -/
def zip4 {α β γ δ : Type} : List α → List β → List γ → List δ → List (α × β × γ × δ)
  | a :: as, b :: bs, c :: cs, d :: ds => (a, b, c, d) :: zip4 as bs cs ds
  | _, _, _, _ => []

/-- Embedding of `read_soa_boxes` (`aabb_io.py` lines 69-73): read the arrays
and zip them back into boxes, returning `(boxes, world_w, world_h)`. -/
def read_soa_boxes (bytes : List ℕ) : Except String (List (ℕ × ℕ × ℕ × ℕ) × ℕ × ℕ) :=
  match read_soa_arrays bytes with
  | Except.error e => Except.error e
  | Except.ok (min_x, min_y, max_x, max_y, _, w, h) =>
      Except.ok (zip4 min_x min_y max_x max_y, w, h)

theorem u32le_length (v : ℕ) : (u32le v).length = 4 := rfl

theorem decodeU32_u32le (v : ℕ) (h : v < 2 ^ 32) : decodeU32 (u32le v) = v := by
  show v % 256 + 256 * (v / 256 % 256) + 65536 * (v / 65536 % 256)
      + 16777216 * (v / 16777216 % 256) = v
  omega

theorem decodeU32_u32le_append (v : ℕ) (rest : List ℕ) (h : v < 2 ^ 32) :
    decodeU32 (u32le v ++ rest) = v := by
  show v % 256 + 256 * (v / 256 % 256) + 65536 * (v / 65536 % 256)
      + 16777216 * (v / 16777216 % 256) = v
  omega

theorem flatMap_u32le_length (l : List ℕ) : (l.flatMap u32le).length = 4 * l.length := by
  induction l with
  | nil => rfl
  | cons x xs ih => simp [List.flatMap_cons, u32le, ih]; omega

theorem chunk4_flatMap (l : List ℕ) (h : ∀ v ∈ l, v < 2 ^ 32) :
    readF32.chunk4 (l.flatMap u32le) = l := by
  induction l with
  | nil => rfl
  | cons x xs ih =>
    have hx : x < 2 ^ 32 := h x (List.mem_cons_self x xs)
    have hstep : (x :: xs).flatMap u32le
        = x % 256 :: x / 256 % 256 :: x / 65536 % 256 :: x / 16777216 % 256
          :: xs.flatMap u32le := by
      rw [List.flatMap_cons]; rfl
    rw [hstep, readF32.chunk4, ih (fun v hv => h v (List.mem_cons_of_mem x hv))]
    congr 1
    omega

theorem readF32_exact (arr rest : List ℕ) (n : ℕ)
    (hlen : arr.length = 4 * n) (hvals : readF32.chunk4 arr = arr') :
    readF32 (arr ++ rest) n = Except.ok (arr', rest) := by
  have h1 : ¬ (arr ++ rest).length < 4 * n := by simp [List.length_append, hlen]
  simp only [readF32, h1, if_false]
  rw [List.take_left' hlen, List.drop_left' hlen, hvals]

theorem readF32_full (arr : List ℕ) (n : ℕ)
    (hlen : arr.length = 4 * n) (hvals : readF32.chunk4 arr = arr') :
    readF32 arr n = Except.ok (arr', []) := by
  have h1 : ¬ arr.length < 4 * n := by omega
  simp only [readF32, h1, if_false]
  rw [List.take_of_length_le (by omega), List.drop_eq_nil_of_le (by omega), hvals]

theorem readF32_err (body : List ℕ) (n : ℕ) (h : body.length < 4 * n) :
    readF32 body n = Except.error "Unexpected EOF reading SoA array" := by
  simp [readF32, h]

theorem readF32_ok (body : List ℕ) (n : ℕ) (h : ¬ body.length < 4 * n) :
    readF32 body n
      = Except.ok (readF32.chunk4 (body.take (4 * n)), body.drop (4 * n)) := by
  simp [readF32, h]

theorem decodeU32_quad (v : ℕ) (h : v < 2 ^ 32) :
    decodeU32 [v % 256, v / 256 % 256, v / 65536 % 256, v / 16777216 % 256] = v := by
  show v % 256 + 256 * (v / 256 % 256) + 65536 * (v / 65536 % 256)
      + 16777216 * (v / 16777216 % 256) = v
  omega

theorem zip4_maps (l : List (ℕ × ℕ × ℕ × ℕ)) :
    zip4 (l.map (·.1)) (l.map (·.2.1)) (l.map (·.2.2.1)) (l.map (·.2.2.2)) = l := by
  induction l with
  | nil => rfl
  | cons b bs ih => simp [zip4, ih]

/-- C3: decoding the binary structure-of-arrays encoding of a dataset returns
the dataset exactly — the 24-byte little-endian header (magic AASO, version 1,
count N, world width, world height, reserved 0) followed by the four
contiguous float32 arrays round-trips: the read returns the same N coordinate
quadruples (stated both array-wise and, via `read_soa_boxes`, quadruple-wise)
and the same world dimensions, for every dataset whose float32 bit patterns
and count fit in 32 bits. -/
theorem C3_binary_roundtrip (boxes : List (ℕ × ℕ × ℕ × ℕ)) (width height : ℕ)
    (hN : boxes.length < 2 ^ 32) (hw : width < 2 ^ 32) (hh : height < 2 ^ 32)
    (hb : ∀ b ∈ boxes,
      b.1 < 2 ^ 32 ∧ b.2.1 < 2 ^ 32 ∧ b.2.2.1 < 2 ^ 32 ∧ b.2.2.2 < 2 ^ 32) :
    read_soa_arrays (write_soa_bin boxes width height)
      = Except.ok (boxes.map (·.1), boxes.map (·.2.1), boxes.map (·.2.2.1),
          boxes.map (·.2.2.2), boxes.length, width, height)
    ∧ read_soa_boxes (write_soa_bin boxes width height)
      = Except.ok (boxes, width, height) := by
  have e1 : (write_soa_bin boxes width height).take 24
      = magicAASO ++ u32le 1 ++ u32le boxes.length ++ u32le width ++ u32le height
        ++ u32le 0 := rfl
  have e2 : (write_soa_bin boxes width height).drop 24
      = (boxes.map (·.1)).flatMap u32le
        ++ ((boxes.map (·.2.1)).flatMap u32le
        ++ ((boxes.map (·.2.2.1)).flatMap u32le
        ++ (boxes.map (·.2.2.2)).flatMap u32le)) := by
    show ((((boxes.map (·.1)).flatMap u32le ++ (boxes.map (·.2.1)).flatMap u32le)
        ++ (boxes.map (·.2.2.1)).flatMap u32le) ++ (boxes.map (·.2.2.2)).flatMap u32le)
      = _
    simp [List.append_assoc]
  have hlenf : ((write_soa_bin boxes width height).take 24).length = 24 := by
    rw [e1]; rfl
  have hmagf : hdrMagic (write_soa_bin boxes width height) = magicAASO := by
    show ((write_soa_bin boxes width height).take 24).take 4 = magicAASO
    rw [e1]; rfl
  have hvf : hdrVersion (write_soa_bin boxes width height) = 1 := by
    show decodeU32 ((((write_soa_bin boxes width height).take 24).drop 4).take 4) = 1
    rw [e1]; rfl
  have hcf : hdrCount (write_soa_bin boxes width height) = boxes.length := by
    show decodeU32 ((((write_soa_bin boxes width height).take 24).drop 8).take 4)
      = boxes.length
    rw [e1]; exact decodeU32_quad _ hN
  have hwf : hdrWorldW (write_soa_bin boxes width height) = width := by
    show decodeU32 ((((write_soa_bin boxes width height).take 24).drop 12).take 4)
      = width
    rw [e1]; exact decodeU32_quad _ hw
  have hhf : hdrWorldH (write_soa_bin boxes width height) = height := by
    show decodeU32 ((((write_soa_bin boxes width height).take 24).drop 16).take 4)
      = height
    rw [e1]; exact decodeU32_quad _ hh
  have hch : ∀ f : (ℕ × ℕ × ℕ × ℕ) → ℕ, (∀ b ∈ boxes, f b < 2 ^ 32) →
      readF32.chunk4 ((boxes.map f).flatMap u32le) = boxes.map f := by
    intro f hf
    refine chunk4_flatMap _ ?_
    intro v hv
    obtain ⟨b, hb', rfl⟩ := List.mem_map.mp hv
    exact hf b hb'
  have hlen : ∀ f : (ℕ × ℕ × ℕ × ℕ) → ℕ,
      ((boxes.map f).flatMap u32le).length = 4 * boxes.length := by
    intro f; rw [flatMap_u32le_length, List.length_map]
  have r1 := readF32_exact ((boxes.map (·.1)).flatMap u32le)
    ((boxes.map (·.2.1)).flatMap u32le ++ ((boxes.map (·.2.2.1)).flatMap u32le
      ++ (boxes.map (·.2.2.2)).flatMap u32le)) boxes.length (hlen _)
    (hch _ (fun b hb' => (hb b hb').1))
  have r2 := readF32_exact ((boxes.map (·.2.1)).flatMap u32le)
    ((boxes.map (·.2.2.1)).flatMap u32le ++ (boxes.map (·.2.2.2)).flatMap u32le)
    boxes.length (hlen _) (hch _ (fun b hb' => (hb b hb').2.1))
  have r3 := readF32_exact ((boxes.map (·.2.2.1)).flatMap u32le)
    ((boxes.map (·.2.2.2)).flatMap u32le) boxes.length (hlen _)
    (hch _ (fun b hb' => (hb b hb').2.2.1))
  have r4 := readF32_full ((boxes.map (·.2.2.2)).flatMap u32le) boxes.length (hlen _)
    (hch _ (fun b hb' => (hb b hb').2.2.2))
  have harr : read_soa_arrays (write_soa_bin boxes width height)
      = Except.ok (boxes.map (·.1), boxes.map (·.2.1), boxes.map (·.2.2.1),
          boxes.map (·.2.2.2), boxes.length, width, height) := by
    simp only [read_soa_arrays, hlenf, hmagf, hvf, hcf, hwf, hhf, e2]
    rw [if_neg (show ¬ ((24 : ℕ) ≠ 24) by norm_num),
      if_neg (show ¬ (magicAASO ≠ magicAASO) by simp),
      if_neg (show ¬ ((1 : ℕ) ≠ 1) by norm_num)]
    simp only [r1, r2, r3, r4]
  refine ⟨harr, ?_⟩
  simp only [read_soa_boxes, harr, zip4_maps]

theorem C3_binary_roundtrip_witness :
    read_soa_arrays (write_soa_bin [(1, 2, 3, 4)] 5 6)
      = Except.ok ([1], [2], [3], [4], 1, 5, 6)
    ∧ read_soa_boxes (write_soa_bin [(1, 2, 3, 4)] 5 6)
      = Except.ok ([(1, 2, 3, 4)], 5, 6) :=
  C3_binary_roundtrip [(1, 2, 3, 4)] 5 6 (by norm_num) (by norm_num) (by norm_num)
    (by intro b hb'; simp at hb'; subst hb'; norm_num)

/-- C7: the binary reader fails with a distinct error when the input is
shorter than the 24-byte header, when the magic differs from AASO, when the
version field is not 1, and when fewer than `16·N` bytes remain for the four
float32 arrays; in every other case the read succeeds. -/
theorem C7_decode_error_cases (bytes : List ℕ) :
    (bytes.length < 24 →
      read_soa_arrays bytes = Except.error "SoA file too small for header")
    ∧ (24 ≤ bytes.length → bytes.take 4 ≠ magicAASO →
      read_soa_arrays bytes = Except.error "Invalid SoA magic; expected AASO")
    ∧ (24 ≤ bytes.length → bytes.take 4 = magicAASO → hdrVersion bytes ≠ 1 →
      read_soa_arrays bytes
        = Except.error ("Unsupported SoA version: " ++ toString (hdrVersion bytes)))
    ∧ (24 ≤ bytes.length → bytes.take 4 = magicAASO → hdrVersion bytes = 1 →
      bytes.length - 24 < 16 * hdrCount bytes →
      read_soa_arrays bytes = Except.error "Unexpected EOF reading SoA array")
    ∧ (24 ≤ bytes.length → bytes.take 4 = magicAASO → hdrVersion bytes = 1 →
      16 * hdrCount bytes ≤ bytes.length - 24 →
      ∃ out, read_soa_arrays bytes = Except.ok out) := by
  have hmag_eq : hdrMagic bytes = bytes.take 4 := by
    show (bytes.take 24).take 4 = bytes.take 4
    rw [List.take_take]
    norm_num
  refine ⟨?_, ?_, ?_, ?_, ?_⟩
  · intro h
    have hcond : ((bytes.take 24).length ≠ 24) := by
      simp [List.length_take]; omega
    simp only [read_soa_arrays]
    rw [if_pos hcond]
  · intro hge hmag
    have hcond : ¬ ((bytes.take 24).length ≠ 24) := by
      simp [List.length_take]; omega
    have hm : hdrMagic bytes ≠ magicAASO := by rw [hmag_eq]; exact hmag
    simp only [read_soa_arrays]
    rw [if_neg hcond, if_pos hm]
  · intro hge hmag hver
    have hcond : ¬ ((bytes.take 24).length ≠ 24) := by
      simp [List.length_take]; omega
    have hm : ¬ (hdrMagic bytes ≠ magicAASO) := by
      rw [hmag_eq]; simp [hmag]
    simp only [read_soa_arrays]
    rw [if_neg hcond, if_neg hm, if_pos hver]
  · intro hge hmag hver hshort
    have hcond : ¬ ((bytes.take 24).length ≠ 24) := by
      simp [List.length_take]; omega
    have hm : ¬ (hdrMagic bytes ≠ magicAASO) := by
      rw [hmag_eq]; simp [hmag]
    have hv : ¬ (hdrVersion bytes ≠ 1) := by simp [hver]
    simp only [read_soa_arrays]
    rw [if_neg hcond, if_neg hm, if_neg hv]
    by_cases h1 : (bytes.drop 24).length < 4 * hdrCount bytes
    · simp only [readF32_err _ _ h1]
    · simp only [readF32_ok _ _ h1]
      by_cases h2 : ((bytes.drop 24).drop (4 * hdrCount bytes)).length
          < 4 * hdrCount bytes
      · simp only [readF32_err _ _ h2]
      · simp only [readF32_ok _ _ h2]
        by_cases h3 : (((bytes.drop 24).drop (4 * hdrCount bytes)).drop
            (4 * hdrCount bytes)).length < 4 * hdrCount bytes
        · simp only [readF32_err _ _ h3]
        · simp only [readF32_ok _ _ h3]
          have h4 : ((((bytes.drop 24).drop (4 * hdrCount bytes)).drop
              (4 * hdrCount bytes)).drop (4 * hdrCount bytes)).length
              < 4 * hdrCount bytes := by
            simp only [List.length_drop] at h1 h2 h3 ⊢
            omega
          simp only [readF32_err _ _ h4]
  · intro hge hmag hver hlong
    have hcond : ¬ ((bytes.take 24).length ≠ 24) := by
      simp [List.length_take]; omega
    have hm : ¬ (hdrMagic bytes ≠ magicAASO) := by
      rw [hmag_eq]; simp [hmag]
    have hv : ¬ (hdrVersion bytes ≠ 1) := by simp [hver]
    have h1 : ¬ (bytes.drop 24).length < 4 * hdrCount bytes := by
      simp only [List.length_drop]; omega
    have h2 : ¬ ((bytes.drop 24).drop (4 * hdrCount bytes)).length
        < 4 * hdrCount bytes := by
      simp only [List.length_drop]; omega
    have h3 : ¬ (((bytes.drop 24).drop (4 * hdrCount bytes)).drop
        (4 * hdrCount bytes)).length < 4 * hdrCount bytes := by
      simp only [List.length_drop]; omega
    have h4 : ¬ ((((bytes.drop 24).drop (4 * hdrCount bytes)).drop
        (4 * hdrCount bytes)).drop (4 * hdrCount bytes)).length
        < 4 * hdrCount bytes := by
      simp only [List.length_drop]; omega
    simp only [read_soa_arrays]
    rw [if_neg hcond, if_neg hm, if_neg hv]
    simp only [readF32_ok _ _ h1, readF32_ok _ _ h2, readF32_ok _ _ h3,
      readF32_ok _ _ h4]
    exact ⟨_, rfl⟩

theorem C7_decode_error_cases_witness :
    read_soa_arrays [] = Except.error "SoA file too small for header" :=
  (C7_decode_error_cases []).1 (by norm_num)

/-! ### Pair-set judge (`judge.py`) -/

/-- A CSV cell, modelled as its sequence of code points. -/
abbrev Tok := List Char

/-- A CSV row: the list of its cells. -/
abbrev Row := List Tok

/-- CPython string comparison: lexicographic by code point.  This is the
order `sorted` uses on the two cells of a pair in `read_pairs`. -/
def tokLt : Tok → Tok → Bool
  | [], [] => false
  | [], _ :: _ => true
  | _ :: _, [] => false
  | a :: as, b :: bs => if a < b then true else if b < a then false else tokLt as bs

/-- Python `str.strip()`: remove leading and trailing whitespace. -/
def strip (t : Tok) : Tok :=
  ((t.dropWhile Char.isWhitespace).reverse.dropWhile Char.isWhitespace).reverse

/-- Python `str.lower()` on the (ASCII) cells the judge sees. -/
def lowerTok (t : Tok) : Tok := t.map Char.toLower

/-- The normalized pair of `read_pairs`: `tuple(sorted((a, b)))`, i.e. the two
cells in string order. -/
def normPair (a b : Tok) : Tok × Tok := if tokLt b a then (b, a) else (a, b)

/-- Header sniffing of `read_pairs` (`judge.py` line 28): the first row is a
header when it has at least two cells and both, stripped and lowercased,
start with id. -/
def isHeaderRow : Row → Bool
  | a :: b :: _ =>
      (List.isPrefixOf ['i', 'd'] (lowerTok (strip a)))
        && (List.isPrefixOf ['i', 'd'] (lowerTok (strip b)))
  | _ => false

/-- Row-skipping test of `read_pairs` (`judge.py` line 32): a row is skipped
when it is empty or all its cells strip to the empty string. -/
def isBlankRow (r : Row) : Bool := r.all (fun c => (strip c).isEmpty)

/-- Cell extraction of `read_pairs` (`judge.py` lines 34-35): the first cell
stripped, and the second cell stripped or the empty string when the row has
fewer than two cells. -/
def rowPair : Row → Tok × Tok
  | [] => ([], [])
  | [a] => (strip a, [])
  | a :: b :: _ => (strip a, strip b)

/-- The data rows of a CSV: all rows, minus an optional leading header row. -/
def dataRows : List Row → List Row
  | [] => []
  | first :: rest => if isHeaderRow first then rest else first :: rest

/-- Embedding of `read_pairs` (`judge.py` lines 14-38): skip an optional
header row, skip blank rows, normalize each remaining row's first two cells
into a sorted pair, and count multiplicities (`collections.Counter` is the
finite multiset of the normalized pairs). -/
def read_pairs (rows : List Row) : Multiset (Tok × Tok) :=
  ↑(((dataRows rows).filter (fun r => ! isBlankRow r)).map
      (fun r => normPair (rowPair r).1 (rowPair r).2))

/-- The judge verdict (`judge.py` lines 57-60): match iff the two Counters
are equal. -/
def judge_verdict (expRows actRows : List Row) : Bool :=
  decide (read_pairs expRows = read_pairs actRows)

/-- Counter subtraction `exp - act` (`judge.py` line 63): pairs missing from
the actual list, with positive multiplicities only. -/
def judge_missing (expRows actRows : List Row) : Multiset (Tok × Tok) :=
  read_pairs expRows - read_pairs actRows

/-- Counter subtraction `act - exp` (`judge.py` line 64): pairs present in the
actual list but not expected, with positive multiplicities only. -/
def judge_extra (expRows actRows : List Row) : Multiset (Tok × Tok) :=
  read_pairs actRows - read_pairs expRows

theorem tokLt_asymm (a b : Tok) (h : tokLt a b = true) : tokLt b a = false := by
  induction a generalizing b with
  | nil =>
    cases b with
    | nil => simp [tokLt] at h
    | cons x xs => simp [tokLt]
  | cons x xs ih =>
    cases b with
    | nil => simp [tokLt] at h
    | cons y ys =>
      simp only [tokLt] at h ⊢
      rcases lt_trichotomy x y with hxy | hxy | hxy
      · simp [hxy, lt_asymm hxy]
      · subst hxy
        simp only [lt_irrefl, if_false] at h ⊢
        exact ih ys h
      · simp [hxy, lt_asymm hxy] at h

theorem tokLt_conn (a b : Tok) (hab : tokLt a b = false) (hba : tokLt b a = false) :
    a = b := by
  induction a generalizing b with
  | nil =>
    cases b with
    | nil => rfl
    | cons y ys => simp [tokLt] at hab
  | cons x xs ih =>
    cases b with
    | nil => simp [tokLt] at hba
    | cons y ys =>
      simp only [tokLt] at hab hba
      rcases lt_trichotomy x y with hxy | hxy | hxy
      · simp [hxy] at hab
      · subst hxy
        simp only [lt_irrefl, if_false] at hab hba
        rw [ih ys hab hba]
      · simp [hxy] at hba

theorem normPair_comm (a b : Tok) : normPair a b = normPair b a := by
  unfold normPair
  cases h1 : tokLt b a with
  | true => simp [tokLt_asymm b a h1]
  | false =>
    cases h2 : tokLt a b with
    | true => simp
    | false => rw [tokLt_conn a b h2 h1]

/-- C5: the Judge normalizes each raw pair by sorting its two cells (so
`(a,b)` and `(b,a)` yield the same key), accumulates a count per key
(duplicates counted, not deduplicated — the multiset has exactly one entry
per retained data row), and declares a match exactly when the two count
multisets are equal.  In particular expected `[(3,7)]` matches actual
`[(7,3)]`, while expected `[(1,2),(1,2)]` against actual `[(1,2)]` is a
mismatch with `(1,2)` missing once and nothing extra. -/
theorem C5_judge_normalization :
    (∀ a b : Tok, normPair a b = normPair b a)
    ∧ (∀ expRows actRows : List Row,
        judge_verdict expRows actRows = true ↔ read_pairs expRows = read_pairs actRows)
    ∧ (∀ rows : List Row,
        (read_pairs rows).card
          = ((dataRows rows).filter (fun r => ! isBlankRow r)).length)
    ∧ read_pairs [["3".data, "7".data]] = read_pairs [["7".data, "3".data]]
    ∧ judge_verdict [["1".data, "2".data], ["1".data, "2".data]]
        [["1".data, "2".data]] = false
    ∧ judge_missing [["1".data, "2".data], ["1".data, "2".data]]
        [["1".data, "2".data]] = {("1".data, "2".data)}
    ∧ judge_extra [["1".data, "2".data], ["1".data, "2".data]]
        [["1".data, "2".data]] = 0 := by
  refine ⟨normPair_comm, ?_, ?_, by decide, by decide, by decide, by decide⟩
  · intro expRows actRows
    simp [judge_verdict]
  · intro rows
    simp [read_pairs]

/-- C10: the Judge compares pair cells as raw text, not as numbers — 01 and
1 (and 1 and 1.0) are different canonical keys and therefore mismatch — and
normalization sorts the two cells in string order, so the pair `(9, 10)`
normalizes to the key `(10, 9)`. -/
theorem C10_text_comparison :
    normPair "9".data "10".data = ("10".data, "9".data)
    ∧ normPair "3".data "01".data ≠ normPair "3".data "1".data
    ∧ normPair "3".data "1.0".data ≠ normPair "3".data "1".data
    ∧ judge_verdict [["3".data, "01".data]] [["3".data, "1".data]] = false
    ∧ judge_verdict [["3".data, "1.0".data]] [["3".data, "1".data]] = false := by
  refine ⟨by decide, by decide, by decide, by decide, by decide⟩

/-- C9 counterexample: a non-empty line with a single token is not a format
error — `read_pairs` accepts the row `["5"]` and returns the normalized pair
`("", "5")` (the missing second token is read as the empty string), instead
of failing; indeed `read_pairs` has no failure path at all. -/
theorem C9_counterexample_single_token :
    read_pairs [["5".data]] = {(([] : Tok), "5".data)}
    ∧ read_pairs [["1".data, "2".data, "3".data]] = {("1".data, "2".data)} := by
  refine ⟨by decide, by decide⟩

/-- C9 amended: the judge's reader never fails on token counts — a row with
more than two cells is read exactly as the row of its first two cells, and a
non-blank single-cell row is accepted as the pair of its cell with the empty
string. -/
theorem C9_token_count_amended (a b : Tok) (rest : List Tok) (rows : List Row)
    (hblank : (strip a).isEmpty = false ∨ (strip b).isEmpty = false) :
    read_pairs ((a :: b :: rest) :: rows) = read_pairs ([a, b] :: rows)
    ∧ ∀ c : Tok, (strip c).isEmpty = false →
        read_pairs [[c]] = {(normPair (strip c) [])} := by
  constructor
  · have hhdr : isHeaderRow (a :: b :: rest) = isHeaderRow [a, b] := rfl
    have hb1 : isBlankRow (a :: b :: rest) = false := by
      rcases hblank with h | h <;> simp [isBlankRow, h]
    have hb2 : isBlankRow [a, b] = false := by
      rcases hblank with h | h <;> simp [isBlankRow, h]
    simp only [read_pairs, dataRows, hhdr]
    cases hh : isHeaderRow [a, b] with
    | true => simp
    | false =>
      simp only [Bool.false_eq_true, if_false, List.filter_cons, hb1, hb2,
        Bool.not_false, List.map_cons]
      rfl
  · intro c hc
    have h1 : isHeaderRow [c] = false := rfl
    simp [read_pairs, dataRows, h1, isBlankRow, hc, rowPair]

theorem C9_token_count_amended_witness :
    read_pairs [["5".data, "6".data, "7".data]] = read_pairs [["5".data, "6".data]] :=
  (C9_token_count_amended "5".data "6".data ["7".data] []
    (Or.inl (by decide))).1

/-! ### Ground-truth oracle (`ground_truth.py`) -/

/-- Embedding of `intersects` (`ground_truth.py` lines 25-27): closed-interval
AABB overlap on the four structure-of-arrays coordinate arrays (arrays are
modelled as index functions; the oracle only ever indexes below `n`). -/
def intersects (i j : ℕ) (min_x min_y max_x max_y : ℕ → ℚ) : Bool :=
  !(decide (max_x i < min_x j) || decide (max_x j < min_x i)
    || decide (max_y i < min_y j) || decide (max_y j < min_y i))

/-- Embedding of `brute_force_pairs` (`ground_truth.py` lines 38-45): the
double loop `i = 0..n-1`, `j = i+1..n-1`, appending `(i, j)` whenever the two
boxes intersect. -/
def brute_force_pairs (min_x min_y max_x max_y : ℕ → ℚ) (n : ℕ) : List (ℕ × ℕ) :=
  (List.range n).flatMap fun i =>
    (List.range' (i + 1) (n - (i + 1))).filterMap fun j =>
      if intersects i j min_x min_y max_x max_y then some (i, j) else none

/-- Strict lexicographic order on index pairs: the enumeration order of the
oracle's output. -/
def PairLex (p q : ℕ × ℕ) : Prop := p.1 < q.1 ∨ (p.1 = q.1 ∧ p.2 < q.2)

/-- Embedding of the oracle `main`'s guard (`ground_truth.py` lines 53-59):
refuse with the estimate `n·(n-1)/2` when it exceeds 200,000,000 and `force`
is not supplied, otherwise run the brute force. -/
def oracle_main (min_x min_y max_x max_y : ℕ → ℚ) (n : ℕ) (force : Bool) :
    Except ℕ (List (ℕ × ℕ)) :=
  if n * (n - 1) / 2 > 200000000 ∧ force = false then Except.error (n * (n - 1) / 2)
  else Except.ok (brute_force_pairs min_x min_y max_x max_y n)

theorem filterMap_guard_eq {α β : Type} (l : List α) (p : α → Bool) (f : α → β) :
    l.filterMap (fun x => if p x then some (f x) else none) = (l.filter p).map f := by
  induction l with
  | nil => rfl
  | cons x xs ih =>
    by_cases h : p x <;> simp [List.filterMap_cons, List.filter_cons, h, ih]

/-- C1: the oracle's intersection test classifies two boxes as intersecting
exactly when it is not the case that one box's max on some axis is strictly
below the other's min on that axis; in particular the touching boxes
`(0,0,1,1)` and `(1,0,2,1)` (sharing the line `x = 1`) are classified as
intersecting. -/
theorem C1_closed_interval_test (i j : ℕ) (min_x min_y max_x max_y : ℕ → ℚ) :
    (intersects i j min_x min_y max_x max_y = true
      ↔ ¬ (max_x i < min_x j ∨ max_x j < min_x i
          ∨ max_y i < min_y j ∨ max_y j < min_y i))
    ∧ intersects 0 1 (fun k => [(0 : ℚ), 1].getD k 0) (fun k => [(0 : ℚ), 0].getD k 0)
        (fun k => [(1 : ℚ), 2].getD k 0) (fun k => [(1 : ℚ), 1].getD k 0) = true := by
  constructor
  · simp [intersects, not_or, and_assoc]
  · simp [intersects]

theorem C1_closed_interval_test_witness :
    intersects 0 1 (fun _ => (0 : ℚ)) (fun _ => (0 : ℚ)) (fun _ => (1 : ℚ))
      (fun _ => (1 : ℚ)) = true :=
  (C1_closed_interval_test 0 1 _ _ _ _).1.mpr (by norm_num)

/-- C2: the brute-force pass returns exactly the pairs `(i, j)` with
`i < j < n` whose boxes intersect under the closed-interval test, and the
output list is strictly increasing in the lexicographic enumeration order
(`i` outer, `j` inner); the embedding is a pure function of the dataset, so
re-running on the same dataset yields the same ordered list. -/
theorem C2_brute_force_enumeration (min_x min_y max_x max_y : ℕ → ℚ) (n : ℕ) :
    (∀ p : ℕ × ℕ, p ∈ brute_force_pairs min_x min_y max_x max_y n
      ↔ p.1 < p.2 ∧ p.2 < n ∧ intersects p.1 p.2 min_x min_y max_x max_y = true)
    ∧ List.Pairwise PairLex (brute_force_pairs min_x min_y max_x max_y n) := by
  constructor
  · rintro ⟨a, b⟩
    simp only [brute_force_pairs, List.mem_flatMap, List.mem_filterMap,
      List.mem_range, List.mem_range']
    constructor
    · rintro ⟨i, hi, j, ⟨k, hk, rfl⟩, hif⟩
      by_cases hP : intersects i (i + 1 + 1 * k) min_x min_y max_x max_y = true
      · rw [if_pos hP] at hif
        obtain ⟨rfl, rfl⟩ := Prod.mk.injEq .. ▸ Option.some.inj hif
        exact ⟨by omega, by omega, hP⟩
      · rw [if_neg hP] at hif
        exact absurd hif (Option.noConfusion)
    · rintro ⟨hab, hbn, hP⟩
      refine ⟨a, by omega, b, ⟨b - (a + 1), by omega, by omega⟩, ?_⟩
      rw [if_pos hP]
  · rw [brute_force_pairs, List.pairwise_flatMap]
    constructor
    · intro i hi
      rw [filterMap_guard_eq, List.pairwise_map]
      have h1 : List.Pairwise (· < ·) (List.range' (i + 1) (n - (i + 1))) :=
        List.pairwise_lt_range' _ _
      exact (h1.filter _).imp (fun h => Or.inr ⟨rfl, h⟩)
    · refine (List.pairwise_lt_range n).imp ?_
      intro i1 i2 h12 x hx y hy
      rw [filterMap_guard_eq] at hx hy
      obtain ⟨j1, hj1, rfl⟩ := List.mem_map.mp hx
      obtain ⟨j2, hj2, rfl⟩ := List.mem_map.mp hy
      exact Or.inl h12

theorem C2_brute_force_enumeration_witness :
    ((0 : ℕ), (1 : ℕ)) ∈ brute_force_pairs
      (fun k => [(0 : ℚ), 1, 5].getD k 0) (fun k => [(0 : ℚ), 1, 5].getD k 0)
      (fun k => [(2 : ℚ), 3, 6].getD k 0) (fun k => [(2 : ℚ), 3, 6].getD k 0) 3 :=
  ((C2_brute_force_enumeration _ _ _ _ 3).1 (0, 1)).mpr
    ⟨by norm_num, by norm_num, by simp [intersects]⟩

/-- C6: the oracle refuses to run — reporting the estimate `n·(n-1)/2` and
emitting no pairs — exactly when the estimate strictly exceeds 200,000,000
and the force override is absent; with the override it runs, and the pair
output once it runs is `brute_force_pairs` of the dataset either way. -/
theorem C6_cost_guard (min_x min_y max_x max_y : ℕ → ℚ) (n : ℕ) :
    (∀ (force : Bool) (e : ℕ),
      oracle_main min_x min_y max_x max_y n force = Except.error e
        ↔ e = n * (n - 1) / 2 ∧ n * (n - 1) / 2 > 200000000 ∧ force = false)
    ∧ (∀ (force : Bool) (ps : List (ℕ × ℕ)),
      oracle_main min_x min_y max_x max_y n force = Except.ok ps
        → ps = brute_force_pairs min_x min_y max_x max_y n)
    ∧ oracle_main min_x min_y max_x max_y n true
        = Except.ok (brute_force_pairs min_x min_y max_x max_y n)
    ∧ (n * (n - 1) / 2 ≤ 200000000 →
      oracle_main min_x min_y max_x max_y n false
        = Except.ok (brute_force_pairs min_x min_y max_x max_y n)) := by
  refine ⟨?_, ?_, ?_, ?_⟩
  · intro force e
    by_cases hc : n * (n - 1) / 2 > 200000000 ∧ force = false
    · rw [oracle_main, if_pos hc]
      constructor
      · intro h
        exact ⟨(Except.error.inj h).symm, hc⟩
      · rintro ⟨rfl, _⟩
        rfl
    · rw [oracle_main, if_neg hc]
      constructor
      · intro h
        exact absurd h (by simp)
      · rintro ⟨rfl, h2, h3⟩
        exact absurd ⟨h2, h3⟩ hc
  · intro force ps h
    rw [oracle_main] at h
    by_cases hc : n * (n - 1) / 2 > 200000000 ∧ force = false
    · rw [if_pos hc] at h
      exact absurd h (by simp)
    · rw [if_neg hc] at h
      exact (Except.ok.inj h).symm
  · rw [oracle_main, if_neg (by simp)]
  · intro hle
    rw [oracle_main, if_neg (by omega)]

theorem C6_cost_guard_witness :
    oracle_main (fun _ => (0 : ℚ)) (fun _ => (0 : ℚ)) (fun _ => (0 : ℚ))
      (fun _ => (0 : ℚ)) 30000 false = Except.error 449985000 :=
  ((C6_cost_guard _ _ _ _ 30000).1 false 449985000).mpr
    ⟨by norm_num, by norm_num, rfl⟩

/-! ### Distribution generator (`gen.py`) -/

/-- A generated box, `(min_x, min_y, max_x, max_y)` with exact-rational
coordinates. -/
structure Box where
  min_x : ℚ
  min_y : ℚ
  max_x : ℚ
  max_y : ℚ
deriving DecidableEq, Repr

/-- Embedding of `clamp` (`gen.py` line 14): `max lo (min hi v)`. -/
def clamp (v lo hi : ℚ) : ℚ := max lo (min hi v)

/-- Pop the next unit draw off the random stream (a dead stream yields 0;
every concrete evaluation below supplies enough draws). -/
def nextDraw : List ℚ → ℚ × List ℚ
  | [] => (0, [])
  | u :: rest => (u, rest)

/-- CPython `random.uniform a b`: `a + (b - a) * random()`. -/
def pyUniform (a b : ℚ) (rng : List ℚ) : ℚ × List ℚ :=
  (a + (b - a) * (nextDraw rng).1, (nextDraw rng).2)

/-- The two size-distribution modes of `gen.py`. -/
inductive SizeDist
  | uniform
  | skewed
deriving DecidableEq

/-- Embedding of `sample_size` (`gen.py` lines 18-50): half-width and
half-height per the size-distribution settings (decimal literals modelled as
exact rationals). -/
def sample_size (min_size max_size width height : ℚ) (size_dist : SizeDist)
    (big_fraction big_size_mult : ℚ) (rng : List ℚ) : (ℚ × ℚ) × List ℚ :=
  match size_dist with
  | SizeDist.uniform =>
    let r1 := pyUniform (min_size * (1 / 2)) (max_size * (1 / 2)) rng
    let r2 := pyUniform (min_size * (1 / 2)) (max_size * (1 / 2)) r1.2
    ((r1.1, r2.1), r2.2)
  | SizeDist.skewed =>
    let u := nextDraw rng
    let er :=
      if u.1 < big_fraction then
        pyUniform (max_size * (1 / 2))
          (min (min width height) (max_size * big_size_mult) * (1 / 2)) u.2
      else
        pyUniform (min_size * (1 / 2))
          (min max_size (min_size + (max_size - min_size) * (3 / 10)) * (1 / 2)) u.2
    let ar := pyUniform (4 / 5) (5 / 4) er.2
    ((er.1 * ar.1, er.1 / ar.1), ar.2)

/-- One inner-loop iteration of `gen_packed` (`gen.py` lines 189-210): sample
a size, enlarge it by `packed_overlap_mult`, jitter the cell center, clamp the
center so the half-extent would stay in-world, and emit the box. -/
def packedCell (width height min_size max_size : ℚ) (size_dist : SizeDist)
    (big_fraction big_size_mult packed_overlap_mult cell_w cell_h : ℚ)
    (r c : ℕ) (rng : List ℚ) : Box × List ℚ :=
  let s := sample_size min_size max_size width height size_dist big_fraction
    big_size_mult rng
  let hw := s.1.1 * packed_overlap_mult
  let hh := s.1.2 * packed_overlap_mult
  let jx := pyUniform (-(1 / 4)) (1 / 4) s.2
  let jy := pyUniform (-(1 / 4)) (1 / 4) jx.2
  let center_x := clamp (((c : ℚ) + 1 / 2) * cell_w + jx.1 * cell_w) (0 + hw) (width - hw)
  let center_y := clamp (((r : ℚ) + 1 / 2) * cell_h + jy.1 * cell_h) (0 + hh) (height - hh)
  (⟨center_x - hw, center_y - hh, center_x + hw, center_y + hh⟩, jy.2)

/-- The cell loop of `gen_packed`, threading the random stream. -/
def gen_packed_cells (width height min_size max_size : ℚ) (size_dist : SizeDist)
    (big_fraction big_size_mult packed_overlap_mult cell_w cell_h : ℚ) :
    List (ℕ × ℕ) → List ℚ → List Box
  | [], _ => []
  | rc :: rest, rng =>
    let br := packedCell width height min_size max_size size_dist big_fraction
      big_size_mult packed_overlap_mult cell_w cell_h rc.1 rc.2 rng
    br.1 :: gen_packed_cells width height min_size max_size size_dist big_fraction
      big_size_mult packed_overlap_mult cell_w cell_h rest br.2

/-- Python `math.ceil (math.sqrt n)` for a natural `n`. -/
def ceilSqrt (n : ℕ) : ℕ :=
  if Nat.sqrt n * Nat.sqrt n = n then Nat.sqrt n else Nat.sqrt n + 1

/-- Python `math.ceil (a / b)` for naturals (only used with `b > 0`). -/
def ceilDiv (a b : ℕ) : ℕ := (a + b - 1) / b

/-- Embedding of `gen_packed` (`gen.py` lines 167-211): boxes on a
`ceil(sqrt n) × ceil(n / cols)` grid in row-major order (the `idx >= n` break
truncates the cell list at `n`), each enlarged by `packed_overlap_mult`. -/
def gen_packed (n : ℕ) (width height min_size max_size : ℚ) (size_dist : SizeDist)
    (big_fraction big_size_mult packed_overlap_mult : ℚ) (rng : List ℚ) : List Box :=
  let cols := ceilSqrt n
  let rows := ceilDiv n cols
  let cell_w := width / (cols : ℚ)
  let cell_h := height / (rows : ℚ)
  gen_packed_cells width height min_size max_size size_dist big_fraction big_size_mult
    packed_overlap_mult cell_w cell_h
    (((List.range rows).flatMap fun r => (List.range cols).map fun c => (r, c)).take n)
    rng

/-- The swap step of `gen_uniform` (`gen.py` lines 77-80): exchange the two
coordinates when clamping inverted them. -/
def orient (mn mx : ℚ) : ℚ × ℚ := if mx < mn then (mx, mn) else (mn, mx)

/-- The corner construction of `gen_uniform` (`gen.py` lines 69-80): corners
from center and half-extents, clamped into the world, each axis swapped if
inverted. -/
def cornersBox (width height x y hw hh : ℚ) : Box :=
  let xpair := orient (clamp (x - hw) 0 width) (clamp (x + hw) 0 width)
  let ypair := orient (clamp (y - hh) 0 height) (clamp (y + hh) 0 height)
  ⟨xpair.1, ypair.1, xpair.2, ypair.2⟩

/-- One loop iteration of `gen_uniform` (`gen.py` lines 64-81): sample a size,
place the center uniformly, clamp the corners into the world and swap either
axis if the clamping inverted it. -/
def uniformCell (width height min_size max_size : ℚ) (size_dist : SizeDist)
    (big_fraction big_size_mult : ℚ) (rng : List ℚ) : Box × List ℚ :=
  let s := sample_size min_size max_size width height size_dist big_fraction
    big_size_mult rng
  let xr := pyUniform s.1.1 (max s.1.1 (width - s.1.1)) s.2
  let yr := pyUniform s.1.2 (max s.1.2 (height - s.1.2)) xr.2
  (cornersBox width height xr.1 yr.1 s.1.1 s.1.2, yr.2)

/-- Embedding of `gen_uniform` (`gen.py` lines 53-82). -/
def gen_uniform (width height min_size max_size : ℚ) (size_dist : SizeDist)
    (big_fraction big_size_mult : ℚ) : ℕ → List ℚ → List Box
  | 0, _ => []
  | n + 1, rng =>
    let br := uniformCell width height min_size max_size size_dist big_fraction
      big_size_mult rng
    br.1 :: gen_uniform width height min_size max_size size_dist big_fraction
      big_size_mult n br.2

theorem clamp_nonneg_le (v hi : ℚ) (h : 0 ≤ hi) :
    0 ≤ clamp v 0 hi ∧ clamp v 0 hi ≤ hi := by
  unfold clamp
  constructor
  · exact le_max_left 0 _
  · rw [max_le_iff]
    exact ⟨h, min_le_left _ _⟩

theorem orient_bounds (mn mx w : ℚ) (h1 : 0 ≤ mn) (h2 : mn ≤ w)
    (h3 : 0 ≤ mx) (h4 : mx ≤ w) :
    0 ≤ (orient mn mx).1 ∧ (orient mn mx).1 ≤ (orient mn mx).2
      ∧ (orient mn mx).2 ≤ w := by
  unfold orient
  split
  · rename_i hlt
    exact ⟨h3, le_of_lt hlt, h2⟩
  · rename_i hlt
    exact ⟨h1, le_of_not_lt hlt, h4⟩

theorem cornersBox_bounds (width height x y hw hh : ℚ)
    (hW : 0 ≤ width) (hH : 0 ≤ height) :
    0 ≤ (cornersBox width height x y hw hh).min_x
    ∧ (cornersBox width height x y hw hh).min_x ≤ (cornersBox width height x y hw hh).max_x
    ∧ (cornersBox width height x y hw hh).max_x ≤ width
    ∧ 0 ≤ (cornersBox width height x y hw hh).min_y
    ∧ (cornersBox width height x y hw hh).min_y ≤ (cornersBox width height x y hw hh).max_y
    ∧ (cornersBox width height x y hw hh).max_y ≤ height := by
  obtain ⟨ha1, ha2⟩ := clamp_nonneg_le (x - hw) width hW
  obtain ⟨hb1, hb2⟩ := clamp_nonneg_le (x + hw) width hW
  obtain ⟨hc1, hc2⟩ := clamp_nonneg_le (y - hh) height hH
  obtain ⟨hd1, hd2⟩ := clamp_nonneg_le (y + hh) height hH
  obtain ⟨hx1, hx2, hx3⟩ := orient_bounds _ _ width ha1 ha2 hb1 hb2
  obtain ⟨hy1, hy2, hy3⟩ := orient_bounds _ _ height hc1 hc2 hd1 hd2
  exact ⟨hx1, hx2, hx3, hy1, hy2, hy3⟩

/-- The bounds invariant does hold for `gen_uniform`, for arbitrary draw
values: the final clamp-and-swap forces `0 ≤ min ≤ max ≤ world` on both axes
(contrast with `gen_packed`, which omits it). -/
theorem gen_uniform_bounds (width height min_size max_size : ℚ)
    (size_dist : SizeDist) (big_fraction big_size_mult : ℚ) (n : ℕ) (rng : List ℚ)
    (hW : 0 ≤ width) (hH : 0 ≤ height) :
    ∀ b ∈ gen_uniform width height min_size max_size size_dist big_fraction
        big_size_mult n rng,
      0 ≤ b.min_x ∧ b.min_x ≤ b.max_x ∧ b.max_x ≤ width
      ∧ 0 ≤ b.min_y ∧ b.min_y ≤ b.max_y ∧ b.max_y ≤ height := by
  induction n generalizing rng with
  | zero => intro b hb; exact absurd hb (List.not_mem_nil b)
  | succ k ih =>
    intro b hb
    rw [gen_uniform] at hb
    rcases List.mem_cons.mp hb with rfl | hb'
    · exact cornersBox_bounds _ _ _ _ _ _ hW hH
    · exact ih _ b hb'

/-- C4 (code bug): for a valid post-clamping configuration —
`n = 1`, world `10 × 10`, `min_size = max_size = 10`, uniform sizes, default
`big_fraction = 1/20`, `big_size_mult = 3`, default
`packed_overlap_mult = 3/2` — `gen_packed` produces the box
`(0, 0, 15, 15)`, whose `max_x = 15` exceeds `width = 10`: the packed
distribution violates the bounds invariant (its own docstring promises the
enlarged boxes stay "within world bounds", but only the center is clamped,
which fails once the enlarged half-extent exceeds half the world). -/
theorem C4_packed_bounds_violation :
    gen_packed 1 10 10 10 10 SizeDist.uniform (1 / 20) 3 (3 / 2)
        [1 / 2, 1 / 2, 1 / 2, 1 / 2]
      = [⟨0, 0, 15, 15⟩]
    ∧ ¬ ((15 : ℚ) ≤ 10) := by
  constructor
  · show gen_packed_cells 10 10 10 10 SizeDist.uniform (1 / 20) 3 (3 / 2)
      (10 / ((1 : ℕ) : ℚ)) (10 / ((1 : ℕ) : ℚ)) [(0, 0)]
      [1 / 2, 1 / 2, 1 / 2, 1 / 2] = [⟨0, 0, 15, 15⟩]
    rw [gen_packed_cells, gen_packed_cells]
    simp only [packedCell, sample_size, pyUniform, nextDraw, clamp, Box.mk.injEq]
    norm_num [min_def, max_def]
  · norm_num

/-- Total area of a box list (`gen.py` lines 308-310). -/
def totalArea (boxes : List Box) : ℚ :=
  boxes.foldl (fun acc b => acc + (b.max_x - b.min_x) * (b.max_y - b.min_y)) 0

/-- The per-box rescale of `scale_to_occupancy` (`gen.py` lines 320-328):
scale the half-extents about the box's own center, then clamp each
half-extent to `min(hw, cx, width - cx)` (respectively for y). -/
def rescaleBox (width height scale : ℚ) (b : Box) : Box :=
  let cx := (b.min_x + b.max_x) * (1 / 2)
  let cy := (b.min_y + b.max_y) * (1 / 2)
  let hw := min (min ((b.max_x - b.min_x) * (1 / 2) * scale) cx) (width - cx)
  let hh := min (min ((b.max_y - b.min_y) * (1 / 2) * scale) cy) (height - cy)
  ⟨cx - hw, cy - hh, cx + hw, cy + hh⟩

/-- Embedding of `scale_to_occupancy` (`gen.py` lines 302-329).  `math.sqrt`
is passed explicitly as `sqrtf` because exact rationals have no square root;
every theorem constrains `sqrtf` only where the source constrains
`math.sqrt` (nonnegative result), and concrete instantiations use inputs on
which the true square root is rational. -/
def scale_to_occupancy (occupancy : Option ℚ) (width height : ℚ) (sqrtf : ℚ → ℚ)
    (boxes : List Box) : List Box :=
  match occupancy with
  | none => boxes
  | some occ =>
    if width * height ≤ 0 then boxes
    else if totalArea boxes ≤ 0 then boxes
    else if occ * (width * height) ≤ 0 then boxes
    else
      let scale := sqrtf (occ * (width * height) / totalArea boxes)
      if scale = 1 then boxes
      else boxes.map (rescaleBox width height scale)

/-- C8 counterexample: on the generated (packed, `packed_overlap_mult = 3`)
box list `[(0, 0, 30, 30)]` in a `10 × 10` world — positive total area 900 —
with positive occupancy target `9/100` (scale `s = sqrt(9/900) = 1/10`), the
rescaled box is `(20, 20, 10, 10)`: its `min_x = 20` exceeds the world width
10 (and exceeds its own `max_x`), so the rescaled box does not fit inside the
world, because the box's center `(15, 15)` lies outside it and the clamp
`min(hw, cx, width - cx)` then picks the negative `width - cx`. -/
theorem C8_rescaled_box_escapes_world :
    scale_to_occupancy (some (9 / 100)) 10 10 (fun _ => 1 / 10)
        (gen_packed 1 10 10 10 10 SizeDist.uniform (1 / 20) 3 3
          [1 / 2, 1 / 2, 1 / 2, 1 / 2])
      = [⟨20, 20, 10, 10⟩]
    ∧ ¬ ((20 : ℚ) ≤ 10) := by
  have hgen : gen_packed 1 10 10 10 10 SizeDist.uniform (1 / 20) 3 3
      [1 / 2, 1 / 2, 1 / 2, 1 / 2] = [⟨0, 0, 30, 30⟩] := by
    show gen_packed_cells 10 10 10 10 SizeDist.uniform (1 / 20) 3 3
      (10 / ((1 : ℕ) : ℚ)) (10 / ((1 : ℕ) : ℚ)) [(0, 0)]
      [1 / 2, 1 / 2, 1 / 2, 1 / 2] = [⟨0, 0, 30, 30⟩]
    rw [gen_packed_cells, gen_packed_cells]
    simp only [packedCell, sample_size, pyUniform, nextDraw, clamp, Box.mk.injEq]
    norm_num [min_def, max_def]
  rw [hgen]
  constructor
  · have harea : totalArea [(⟨0, 0, 30, 30⟩ : Box)] = 900 := by
      norm_num [totalArea]
    simp only [scale_to_occupancy, harea]
    rw [if_neg (by norm_num), if_neg (by norm_num), if_neg (by norm_num),
      if_neg (by norm_num)]
    simp only [List.map_cons, List.map_nil, rescaleBox, Box.mk.injEq]
    norm_num [min_def]
  · norm_num

/-- C8 amended: for every box list whose boxes are well-formed
(`min ≤ max` on both axes) with centers inside the world, positive total
area, positive occupancy target and positive world area, the rescaling step
multiplies each box's half-extents by the single factor
`s = sqrt(target_area / current_area)` about the box's own center and clamps
each half-extent to the distance from the center to the nearest world edge on
that axis, so every rescaled box fits fully inside the world; when `s` is
exactly 1 the list is returned unchanged.  (The center-in-world hypothesis is
what the original claim lacked: generated packed boxes can violate it.) -/
theorem C8_occupancy_rescale_amended (occ width height s : ℚ) (sqrtf : ℚ → ℚ)
    (boxes : List Box)
    (hW : 0 < width) (hH : 0 < height)
    (harea : 0 < totalArea boxes) (hocc : 0 < occ)
    (hs_def : sqrtf (occ * (width * height) / totalArea boxes) = s)
    (hs_nonneg : 0 ≤ s)
    (hboxes : ∀ b ∈ boxes, b.min_x ≤ b.max_x ∧ b.min_y ≤ b.max_y
      ∧ 0 ≤ b.min_x + b.max_x ∧ b.min_x + b.max_x ≤ 2 * width
      ∧ 0 ≤ b.min_y + b.max_y ∧ b.min_y + b.max_y ≤ 2 * height) :
    (s = 1 → scale_to_occupancy (some occ) width height sqrtf boxes = boxes)
    ∧ (s ≠ 1 →
        scale_to_occupancy (some occ) width height sqrtf boxes
          = boxes.map (rescaleBox width height s)
        ∧ ∀ b' ∈ scale_to_occupancy (some occ) width height sqrtf boxes,
            0 ≤ b'.min_x ∧ b'.min_x ≤ b'.max_x ∧ b'.max_x ≤ width
            ∧ 0 ≤ b'.min_y ∧ b'.min_y ≤ b'.max_y ∧ b'.max_y ≤ height) := by
  have hg1 : ¬ (width * height ≤ 0) := not_le.mpr (by positivity)
  have hg2 : ¬ (totalArea boxes ≤ 0) := not_le.mpr harea
  have hg3 : ¬ (occ * (width * height) ≤ 0) := not_le.mpr (by positivity)
  have hunfold : scale_to_occupancy (some occ) width height sqrtf boxes
      = if s = 1 then boxes else boxes.map (rescaleBox width height s) := by
    simp only [scale_to_occupancy]
    rw [if_neg hg1, if_neg hg2, if_neg hg3, hs_def]
  constructor
  · intro h1
    rw [hunfold, if_pos h1]
  · intro h1
    rw [hunfold, if_neg h1]
    refine ⟨rfl, ?_⟩
    intro b' hb'
    obtain ⟨b, hb, rfl⟩ := List.mem_map.mp hb'
    obtain ⟨hbx, hby, hcx0, hcx2, hcy0, hcy2⟩ := hboxes b hb
    unfold rescaleBox
    dsimp only
    have hA : 0 ≤ (b.max_x - b.min_x) * (1 / 2) * s := by
      have : 0 ≤ b.max_x - b.min_x := by linarith
      positivity
    have hB : 0 ≤ (b.max_y - b.min_y) * (1 / 2) * s := by
      have : 0 ≤ b.max_y - b.min_y := by linarith
      positivity
    have hcx : 0 ≤ (b.min_x + b.max_x) * (1 / 2) := by linarith
    have hcxw : (b.min_x + b.max_x) * (1 / 2) ≤ width := by linarith
    have hcy : 0 ≤ (b.min_y + b.max_y) * (1 / 2) := by linarith
    have hcyh : (b.min_y + b.max_y) * (1 / 2) ≤ height := by linarith
    have hwle1 : min (min ((b.max_x - b.min_x) * (1 / 2) * s)
        ((b.min_x + b.max_x) * (1 / 2))) (width - (b.min_x + b.max_x) * (1 / 2))
        ≤ (b.min_x + b.max_x) * (1 / 2) :=
      le_trans (min_le_left _ _) (min_le_right _ _)
    have hwle2 : min (min ((b.max_x - b.min_x) * (1 / 2) * s)
        ((b.min_x + b.max_x) * (1 / 2))) (width - (b.min_x + b.max_x) * (1 / 2))
        ≤ width - (b.min_x + b.max_x) * (1 / 2) := min_le_right _ _
    have hw0 : 0 ≤ min (min ((b.max_x - b.min_x) * (1 / 2) * s)
        ((b.min_x + b.max_x) * (1 / 2))) (width - (b.min_x + b.max_x) * (1 / 2)) :=
      le_min (le_min hA hcx) (by linarith)
    have hhle1 : min (min ((b.max_y - b.min_y) * (1 / 2) * s)
        ((b.min_y + b.max_y) * (1 / 2))) (height - (b.min_y + b.max_y) * (1 / 2))
        ≤ (b.min_y + b.max_y) * (1 / 2) :=
      le_trans (min_le_left _ _) (min_le_right _ _)
    have hhle2 : min (min ((b.max_y - b.min_y) * (1 / 2) * s)
        ((b.min_y + b.max_y) * (1 / 2))) (height - (b.min_y + b.max_y) * (1 / 2))
        ≤ height - (b.min_y + b.max_y) * (1 / 2) := min_le_right _ _
    have hh0 : 0 ≤ min (min ((b.max_y - b.min_y) * (1 / 2) * s)
        ((b.min_y + b.max_y) * (1 / 2))) (height - (b.min_y + b.max_y) * (1 / 2)) :=
      le_min (le_min hB hcy) (by linarith)
    refine ⟨by linarith, by linarith, by linarith, by linarith, by linarith, by linarith⟩

theorem C8_occupancy_rescale_amended_witness :
    scale_to_occupancy (some (1 / 25)) 10 10 (fun _ => 1 / 2) [⟨0, 0, 4, 4⟩]
      = [(⟨0, 0, 4, 4⟩ : Box)].map (rescaleBox 10 10 (1 / 2)) :=
  ((C8_occupancy_rescale_amended (1 / 25) 10 10 (1 / 2) (fun _ => 1 / 2)
      [⟨0, 0, 4, 4⟩] (by norm_num) (by norm_num) (by norm_num [totalArea])
      (by norm_num) rfl (by norm_num)
      (by
        intro b hb
        rw [List.mem_singleton] at hb
        subst hb
        norm_num)).2 (by norm_num)).1

end AABB
